import Mathlib

/-!
Verification development for the MQ listener (`src/mq_client.py`).

The Python program is shallowly embedded: strings are `List Char`, byte
strings are `List Nat` (each entry < 256 in the program), and the
consumption loop `listen_to_queue` is an interpreter over a script of
environment responses that emits the trace of externally visible actions.
-/

namespace MQ

/-- Character-removal set of the regex `[\x00-\x08\x0b-\x0c\x0e-\x1f]`
used by `clean_message` (src/mq_client.py line 69). -/
def removedByRegex (c : Char) : Bool :=
  (c.toNat ≤ 0x08) || (0x0b ≤ c.toNat && c.toNat ≤ 0x0c) ||
    (0x0e ≤ c.toNat && c.toNat ≤ 0x1f)

/-- `re.sub(r'[\x00-\x08\x0b-\x0c\x0e-\x1f]', '', msg)`: drop every
character of the removal set. -/
def ctrlStrip (s : List Char) : List Char :=
  s.filter (fun c => !removedByRegex c)

/-- `str.find(pat)` restricted to what `clean_message` needs: index of the
first occurrence of `pat` as a substring, `none` when absent (Python `-1`). -/
def findSub (pat : List Char) : List Char → Option Nat
  | [] => if pat.isPrefixOf ([] : List Char) then some 0 else none
  | c :: rest =>
    if pat.isPrefixOf (c :: rest) then some 0
    else (findSub pat rest).map (· + 1)

def rfhMarker : List Char := ['R', 'F', 'H']

def xmlMarker : List Char := ['<', '?', 'x', 'm', 'l']

/-- Header-stripping step of `clean_message` (lines 72-75): if the text
starts with "RFH" and contains "<?xml", keep only from the first "<?xml". -/
def headerStrip (s : List Char) : List Char :=
  if rfhMarker.isPrefixOf s then
    match findSub xmlMarker s with
    | some i => s.drop i
    | none => s
  else s

/-- `clean_message` (src/mq_client.py lines 67-77). -/
def clean_message (s : List Char) : List Char :=
  headerStrip (ctrlStrip s)

/-! Model of CPython's `html.unescape` (called by `save_message`, line 88).
The scanner follows the stdlib `html` module: at each `&` it matches the
charref pattern `&(#[0-9]+;?|#[xX][0-9a-fA-F]+;?|[^\t\n\f <&#;]{1,32};?)`
and substitutes; replacements are not rescanned. The named-entity table is
restricted to the predeclared XML entities and their legacy
semicolon-less forms, which are the ones the repository's data exercises;
the numeric-reference rules are complete. -/

/-- Named-entity table (subset of the stdlib `html5` dict; `apos` without a
semicolon is deliberately absent, as in the stdlib). -/
def html5Table : List (List Char × List Char) :=
  [("amp;".data, "&".data), ("amp".data, "&".data),
   ("lt;".data, "<".data), ("lt".data, "<".data),
   ("gt;".data, ">".data), ("gt".data, ">".data),
   ("quot;".data, "\"".data), ("quot".data, "\"".data),
   ("apos;".data, [Char.ofNat 39]),
   ("nbsp;".data, [Char.ofNat 0xa0]), ("nbsp".data, [Char.ofNat 0xa0])]

def namedLookup (s : List Char) : Option (List Char) :=
  (html5Table.find? (fun kv => kv.1 == s)).map (fun kv => kv.2)

/-- Longest-matching-name fallback of `html._replace_charref`: try prefixes
of length `len s - 1` down to `2`. -/
def prefixLookup (s : List Char) : Nat → Option (List Char)
  | 0 => none
  | 1 => none
  | n + 2 =>
    match namedLookup (s.take (n + 2)) with
    | some v => some (v ++ s.drop (n + 2))
    | none => prefixLookup s (n + 1)

def resolveNamed (s : List Char) : List Char :=
  match namedLookup s with
  | some v => v
  | none =>
    match prefixLookup s (s.length - 1) with
    | some v => v
    | none => '&' :: s

/-- `html._invalid_charrefs`: numeric references remapped by the HTML5 spec. -/
def invalidCharrefMap : Nat → Option Char
  | 0x00 => some (Char.ofNat 0xfffd)
  | 0x0d => some (Char.ofNat 0x0d)
  | 0x80 => some (Char.ofNat 0x20ac)
  | 0x81 => some (Char.ofNat 0x81)
  | 0x82 => some (Char.ofNat 0x201a)
  | 0x83 => some (Char.ofNat 0x192)
  | 0x84 => some (Char.ofNat 0x201e)
  | 0x85 => some (Char.ofNat 0x2026)
  | 0x86 => some (Char.ofNat 0x2020)
  | 0x87 => some (Char.ofNat 0x2021)
  | 0x88 => some (Char.ofNat 0x2c6)
  | 0x89 => some (Char.ofNat 0x2030)
  | 0x8a => some (Char.ofNat 0x160)
  | 0x8b => some (Char.ofNat 0x2039)
  | 0x8c => some (Char.ofNat 0x152)
  | 0x8d => some (Char.ofNat 0x8d)
  | 0x8e => some (Char.ofNat 0x17d)
  | 0x8f => some (Char.ofNat 0x8f)
  | 0x90 => some (Char.ofNat 0x90)
  | 0x91 => some (Char.ofNat 0x2018)
  | 0x92 => some (Char.ofNat 0x2019)
  | 0x93 => some (Char.ofNat 0x201c)
  | 0x94 => some (Char.ofNat 0x201d)
  | 0x95 => some (Char.ofNat 0x2022)
  | 0x96 => some (Char.ofNat 0x2013)
  | 0x97 => some (Char.ofNat 0x2014)
  | 0x98 => some (Char.ofNat 0x2dc)
  | 0x99 => some (Char.ofNat 0x2122)
  | 0x9a => some (Char.ofNat 0x161)
  | 0x9b => some (Char.ofNat 0x203a)
  | 0x9c => some (Char.ofNat 0x153)
  | 0x9d => some (Char.ofNat 0x9d)
  | 0x9e => some (Char.ofNat 0x17e)
  | 0x9f => some (Char.ofNat 0x178)
  | _ => none

/-- `html._invalid_codepoints`: numeric references that decode to nothing. -/
def invalidCodepoint (n : Nat) : Bool :=
  (1 ≤ n && n ≤ 8) || (n == 0xb) || (0xe ≤ n && n ≤ 0x1f) ||
    (0x7f ≤ n && n ≤ 0x9f) || (0xfdd0 ≤ n && n ≤ 0xfdef) ||
    (n % 0x10000 == 0xfffe) || (n % 0x10000 == 0xffff)

/-- Numeric branch of `html._replace_charref`. -/
def numCharref (num : Nat) : List Char :=
  match invalidCharrefMap num with
  | some c => [c]
  | none =>
    if (0xd800 ≤ num && num ≤ 0xdfff) || num > 0x10ffff then [Char.ofNat 0xfffd]
    else if invalidCodepoint num then []
    else [Char.ofNat num]

def digVal (c : Char) : Nat := c.toNat - 48

def hexVal (c : Char) : Nat :=
  if c.isDigit then c.toNat - 48
  else if 'a' ≤ c && c ≤ 'f' then c.toNat - 87
  else c.toNat - 55

def isHexDig (c : Char) : Bool :=
  c.isDigit || ('a' ≤ c && c ≤ 'f') || ('A' ≤ c && c ≤ 'F')

def natOfDigits (base : Nat) (f : Char → Nat) (ds : List Char) : Nat :=
  ds.foldl (fun a c => a * base + f c) 0

/-- Character class `[^\t\n\f <&#;]` of the charref pattern. -/
def nameChar (c : Char) : Bool :=
  !(c == '\t' || c == '\n' || c == Char.ofNat 0x0c || c == ' ' ||
      c == '<' || c == '&' || c == '#' || c == ';')

/-- Match the charref pattern against the text following a `&`; on success
return the replacement text and the number of characters consumed. -/
def matchCharref (rest : List Char) : Option (List Char × Nat) :=
  match rest with
  | '#' :: r2 =>
    let ds := r2.takeWhile Char.isDigit
    if ds.isEmpty then
      match r2 with
      | x :: r3 =>
        if x == 'x' || x == 'X' then
          let hs := r3.takeWhile isHexDig
          if hs.isEmpty then none
          else
            match r3.drop hs.length with
            | ';' :: _ => some (numCharref (natOfDigits 16 hexVal hs), 2 + hs.length + 1)
            | _ => some (numCharref (natOfDigits 16 hexVal hs), 2 + hs.length)
        else none
      | [] => none
    else
      match r2.drop ds.length with
      | ';' :: _ => some (numCharref (natOfDigits 10 digVal ds), 1 + ds.length + 1)
      | _ => some (numCharref (natOfDigits 10 digVal ds), 1 + ds.length)
  | _ =>
    let nm := (rest.takeWhile nameChar).take 32
    if nm.isEmpty then none
    else
      match rest.drop nm.length with
      | ';' :: _ => some (resolveNamed (nm ++ [';']), nm.length + 1)
      | _ => some (resolveNamed nm, nm.length)

/-- Scanner of `html.unescape`, fuelled: the fuel only bounds the number of
scan steps and `s.length` steps always suffice, since every step consumes
at least one character. -/
def unescapeFuel : Nat → List Char → List Char
  | 0, s => s
  | _ + 1, [] => []
  | fuel + 1, c :: rest =>
    if c == '&' then
      match matchCharref rest with
      | some (rep, n) => rep ++ unescapeFuel fuel (rest.drop n)
      | none => '&' :: unescapeFuel fuel rest
    else c :: unescapeFuel fuel rest

/-- `html.unescape` (src/mq_client.py line 88). -/
def htmlUnescape (s : List Char) : List Char := unescapeFuel s.length s

/-- The full sanitization applied by `save_message` before the message body
is placed in the document: `html.unescape(clean_message(msg))`
(lines 85-88). -/
def sanitize (s : List Char) : List Char := htmlUnescape (clean_message s)

/-! Model of `bytes.decode('utf-8', errors='ignore')`
(src/mq_client.py line 152). CPython's UTF-8 decoder consumes the maximal
valid subpart of an ill-formed sequence and, with the `ignore` handler,
emits nothing for it. Bytes are `Nat`s (< 256 in the program). -/

/-- Continuation byte test `0x80 ≤ b ≤ 0xBF`. -/
def contB (b : Nat) : Bool := 0x80 ≤ b && b ≤ 0xbf

/-- Admissible second byte of a three-byte sequence (leads `0xE0` and `0xED`
restrict the range, excluding overlong forms and surrogates). -/
def cont3 (lead b : Nat) : Bool :=
  if lead == 0xe0 then 0xa0 ≤ b && b ≤ 0xbf
  else if lead == 0xed then 0x80 ≤ b && b ≤ 0x9f
  else contB b

/-- Admissible second byte of a four-byte sequence (leads `0xF0` and `0xF4`
restrict the range, excluding overlong forms and values above `0x10FFFF`). -/
def cont4 (lead b : Nat) : Bool :=
  if lead == 0xf0 then 0x90 ≤ b && b ≤ 0xbf
  else if lead == 0xf4 then 0x80 ≤ b && b ≤ 0x8f
  else contB b

/-- Decoder scanner, fuelled: the fuel only bounds the number of scan
steps and `bs.length` steps always suffice, since every step consumes at
least one byte. -/
def utf8Fuel : Nat → List Nat → List Char
  | 0, _ => []
  | _ + 1, [] => []
  | fuel + 1, b :: rest =>
    if b < 0x80 then Char.ofNat b :: utf8Fuel fuel rest
    else if b < 0xc2 then utf8Fuel fuel rest
    else if b ≤ 0xdf then
      match rest with
      | [] => []
      | b2 :: r2 =>
        if contB b2 then
          Char.ofNat ((b - 0xc0) * 0x40 + (b2 - 0x80)) :: utf8Fuel fuel r2
        else utf8Fuel fuel rest
    else if b ≤ 0xef then
      match rest with
      | [] => []
      | b2 :: r2 =>
        if cont3 b b2 then
          match r2 with
          | [] => []
          | b3 :: r3 =>
            if contB b3 then
              Char.ofNat ((b - 0xe0) * 0x1000 + (b2 - 0x80) * 0x40 + (b3 - 0x80)) ::
                utf8Fuel fuel r3
            else utf8Fuel fuel r2
        else utf8Fuel fuel rest
    else if b ≤ 0xf4 then
      match rest with
      | [] => []
      | b2 :: r2 =>
        if cont4 b b2 then
          match r2 with
          | [] => []
          | b3 :: r3 =>
            if contB b3 then
              match r3 with
              | [] => []
              | b4 :: r4 =>
                if contB b4 then
                  Char.ofNat ((b - 0xf0) * 0x40000 + (b2 - 0x80) * 0x1000 +
                      (b3 - 0x80) * 0x40 + (b4 - 0x80)) :: utf8Fuel fuel r4
                else utf8Fuel fuel r3
            else utf8Fuel fuel r2
        else utf8Fuel fuel rest
    else utf8Fuel fuel rest

/-- `bytes.decode('utf-8', errors='ignore')`: total, never raises; invalid
bytes are dropped. -/
def utf8DecodeIgnore (bs : List Nat) : List Char := utf8Fuel bs.length bs

/-! Embedding of the consumption loop `listen_to_queue`
(src/mq_client.py lines 133-171). The loop interacts with its environment
at four kinds of points: reading `stop_signal.is_set()`, the
connect-and-open-queue step, `queue.get`, and `save_message`'s filesystem
write. A run is driven by a script of environment responses, consumed in
order; the interpreter emits the trace of the loop's visible actions. The
internal side of `stop_signal` (set by the loop itself on an empty
receive) is interpreter state; `is_set()` reads `true` whenever that bit
is set, without consulting the script. -/

/-- A value returned by `queue.get`: a byte string or (hypothetically) text. -/
inductive Payload
  | bytes (bs : List Nat)
  | text (s : List Char)
deriving DecidableEq

/-- Python truthiness of the received value (`if msg:` at line 147). -/
def truthy : Payload → Bool
  | .bytes bs => !bs.isEmpty
  | .text s => !s.isEmpty

/-- Outcome of one `queue.get` call: a returned value, a falsy return, a
`pymqi.MQMIError` with its reason code, or a non-MQMI exception. -/
inductive RecvR
  | msg (p : Payload)
  | empty
  | mqerr (reason : Int)
  | exn
deriving DecidableEq

/-- `pymqi.CMQC.MQRC_NO_MSG_AVAILABLE`. -/
def MQRC_NO_MSG_AVAILABLE : Int := 2033

/-- One environment response. -/
inductive Ev
  | flag (b : Bool)
  | conn (ok : Bool)
  | recv (r : RecvR)
  | save (ok : Bool)
deriving DecidableEq

/-- Log lines the loop can emit. -/
inductive LogK
  | connected
  | received
  | saved
  | noMore
  | retryNoMsg
  | recvError
  | listenerError
  | retrying
deriving DecidableEq

/-- Visible actions of the loop. `close` exists in the vocabulary so that
its absence from every trace is expressible; `listen_to_queue` contains no
close/disconnect call. Sleeps record their duration in seconds. -/
inductive Act
  | checkStop (b : Bool)
  | connect (ok : Bool)
  | receive (r : RecvR)
  | saveAttempt (content : List Char) (ok : Bool)
  | setStop
  | msgDelay (sec : Nat)
  | backoff (sec : Nat)
  | close
  | log (k : LogK)
deriving DecidableEq

/-- How a run ends: `stopped` when the outer `while` condition goes false
(the function returns), `starved` when the script is exhausted or supplies
a response of the wrong kind (the run is truncated there). -/
inductive Outcome
  | stopped
  | starved
deriving DecidableEq

/-- The text handed to `save_message`: a byte string is first decoded
(line 152), a str is passed as is. -/
def decodePayload : Payload → List Char
  | .bytes bs => utf8DecodeIgnore bs
  | .text s => s

/-- Position in `listen_to_queue`: top of the outer reconnect loop or top
of the inner receive loop. -/
inductive Phase
  | outer
  | inner
deriving DecidableEq

/-- Interpreter for `listen_to_queue`, following the source line by line.
The `Bool` argument is the internal state of `stop_signal` (set only by
line 158). When it is `true`, the remaining checks read `true` and the
loop unwinds deterministically: from the inner loop this is
exit-inner, log retrying, `time.sleep(10)`, failed outer check, return. -/
def run : Phase → Bool → List Ev → List Act × Outcome
  | .outer, true, _ => ([.checkStop true], .stopped)
  | .outer, false, [] => ([], .starved)
  | .outer, false, .flag b :: rest =>
    if b then ([.checkStop true], .stopped)
    else
      match rest with
      | .conn true :: r2 =>
        (.checkStop false :: .connect true :: .log .connected ::
            (run .inner false r2).1, (run .inner false r2).2)
      | .conn false :: r2 =>
        (.checkStop false :: .connect false :: .log .listenerError ::
            .log .retrying :: .backoff 10 :: (run .outer false r2).1,
          (run .outer false r2).2)
      | _ => ([.checkStop false], .starved)
  | .outer, false, _ :: _ => ([], .starved)
  | .inner, true, _ => ([.checkStop true, .log .retrying, .backoff 10, .checkStop true], .stopped)
  | .inner, false, [] => ([], .starved)
  | .inner, false, .flag b :: rest =>
    if b then
      (.checkStop true :: .log .retrying :: .backoff 10 :: (run .outer false rest).1,
        (run .outer false rest).2)
    else
      match rest with
      | .recv (.msg pl) :: r2 =>
        if truthy pl then
          match r2 with
          | .save true :: r3 =>
            (.checkStop false :: .receive (.msg pl) :: .log .received ::
                .saveAttempt (decodePayload pl) true :: .log .saved ::
                .msgDelay 10 :: (run .inner false r3).1, (run .inner false r3).2)
          | .save false :: r3 =>
            (.checkStop false :: .receive (.msg pl) :: .log .received ::
                .saveAttempt (decodePayload pl) false :: .log .listenerError ::
                .log .retrying :: .backoff 10 :: (run .outer false r3).1,
              (run .outer false r3).2)
          | _ => ([.checkStop false, .receive (.msg pl), .log .received], .starved)
        else
          (.checkStop false :: .receive (.msg pl) :: .log .noMore :: .setStop ::
              (run .inner true r2).1, (run .inner true r2).2)
      | .recv .empty :: r2 =>
        (.checkStop false :: .receive .empty :: .log .noMore :: .setStop ::
            (run .inner true r2).1, (run .inner true r2).2)
      | .recv (.mqerr reason) :: r2 =>
        if reason = MQRC_NO_MSG_AVAILABLE then
          (.checkStop false :: .receive (.mqerr reason) :: .log .retryNoMsg ::
              (run .inner false r2).1, (run .inner false r2).2)
        else
          (.checkStop false :: .receive (.mqerr reason) :: .log .recvError ::
              .log .retrying :: .backoff 10 :: (run .outer false r2).1,
            (run .outer false r2).2)
      | .recv .exn :: r2 =>
        (.checkStop false :: .receive .exn :: .log .listenerError ::
            .log .retrying :: .backoff 10 :: (run .outer false r2).1,
          (run .outer false r2).2)
      | _ => ([.checkStop false], .starved)
  | .inner, false, _ :: _ => ([], .starved)

/-- A whole run of `listen_to_queue` (entered with the flag unset). -/
def runLoop (evs : List Ev) : List Act × Outcome := run .outer false evs

/-- Receive and persist actions of a trace. -/
def isRS : Act → Bool
  | .receive _ => true
  | .saveAttempt _ _ => true
  | _ => false

/-- Receive/persist alternation discipline of claim C2, on the
receive-and-persist subsequence of a trace: every receive of a truthy
message is immediately followed by exactly one persist attempt carrying
that message's decoded text (a trailing receive at the end of a truncated
trace is allowed), no persist occurs elsewhere, and in particular no
message is persisted twice. -/
def rsOk : List Act → Bool
  | [] => true
  | .receive (.msg p) :: rest =>
    if truthy p then
      match rest with
      | [] => true
      | .saveAttempt a _ :: r2 => a == decodePayload p && rsOk r2
      | _ => false
    else rsOk rest
  | .receive _ :: rest => rsOk rest
  | _ :: _ => false

/-- Claim C3's reading of persist failures: after every failed persist
attempt, the loop keeps receiving in the same session, i.e. among the
subsequent session-level actions (receive, connect, backoff) the first one
is a receive. -/
def nextIsReceive : List Act → Bool
  | [] => true
  | .receive _ :: _ => true
  | .connect _ :: _ => false
  | .backoff _ :: _ => false
  | _ :: rest => nextIsReceive rest

/-- Check `nextIsReceive` after every failed persist attempt of a trace. -/
def contAfterSaveFail : List Act → Bool
  | [] => true
  | .saveAttempt _ false :: rest => nextIsReceive rest && contAfterSaveFail rest
  | _ :: rest => contAfterSaveFail rest

/-- Script block of `n` consecutive failing connection attempts. -/
def nFails : Nat → List Ev
  | 0 => []
  | n + 1 => .flag false :: .conn false :: nFails n

/-- Trace block the loop emits for `n` consecutive failing connection
attempts: each failure is logged and followed by one 10-second backoff. -/
def failActs : Nat → List Act
  | 0 => []
  | n + 1 =>
    .checkStop false :: .connect false :: .log .listenerError ::
      .log .retrying :: .backoff 10 :: failActs n

/-- Count of backoff sleeps in a trace. -/
def backoffCount (tr : List Act) : Nat :=
  tr.countP (fun a => match a with | .backoff _ => true | _ => false)

/-! Model of `save_message` (src/mq_client.py lines 80-104). The timestamp
string is a parameter (it is read from the wall clock); the queue name is
the configured constant. The document is built with
`xml.etree.ElementTree` and written with `encoding="utf-8",
xml_declaration=True`. -/

def QUEUE_NAME : List Char := "xxxxxxxx".data

/-- Fixed-width zero-padded decimal rendering, as `strftime`'s `%Y`/`%m`/…
produce for in-range values: exactly `w` digits, most significant first. -/
def padDigits : Nat → Nat → List Char
  | 0, _ => []
  | w + 1, n => padDigits w (n / 10) ++ [Char.ofNat (48 + n % 10)]

/-- `datetime.now(timezone.utc).strftime("%Y%m%dT%H%M%SZ")` (line 81),
applied to the clock reading's components. -/
def formatTimestamp (y mo d h mi s : Nat) : List Char :=
  padDigits 4 y ++ padDigits 2 mo ++ padDigits 2 d ++ ['T'] ++
    padDigits 2 h ++ padDigits 2 mi ++ padDigits 2 s ++ ['Z']

/-- The in-memory document `save_message` builds: root `MQMessage` holding
exactly the four child fields, in order. -/
structure MQDoc where
  timestampF : List Char
  queueNameF : List Char
  messageTypeF : List Char
  contentF : List Char
deriving DecidableEq

/-- The document built for message `msg` at timestamp `ts` (lines 91-98). -/
def buildDoc (ts msg : List Char) : MQDoc :=
  ⟨ts, QUEUE_NAME, "Text".data, sanitize msg⟩

/-- The target file name `message_<timestamp>.xml` (line 82), relative to
the output directory. -/
def saveFileName (ts : List Char) : List Char :=
  "message_".data ++ ts ++ ".xml".data

/-- Declaration line `ElementTree.write` emits for
`encoding="utf-8", xml_declaration=True`. -/
def xmlDecl : List Char := "<?xml version='1.0' encoding='utf-8'?>\n".data

/-- `ElementTree._escape_cdata` on one character: `&`, `<`, `>` become
entity references, everything else is written as is. -/
def escC (c : Char) : List Char :=
  if c = '&' then ['&', 'a', 'm', 'p', ';']
  else if c = '<' then ['&', 'l', 't', ';']
  else if c = '>' then ['&', 'g', 't', ';']
  else [c]

def escapeCdata (s : List Char) : List Char :=
  s.foldr (fun c acc => escC c ++ acc) []

/-- Serialization of one child element: an empty text serializes as a
self-closed tag (ElementTree treats `""` as absent text). -/
def serializeElem (tag text : List Char) : List Char :=
  if text.isEmpty then '<' :: tag ++ " />".data
  else '<' :: tag ++ ">".data ++ escapeCdata text ++ "</".data ++ tag ++ ">".data

/-- The bytes `tree.write(filename, encoding="utf-8",
xml_declaration=True)` produces, as text. -/
def serializeDoc (d : MQDoc) : List Char :=
  xmlDecl ++ "<MQMessage>".data ++
    serializeElem "Timestamp".data d.timestampF ++
    serializeElem "QueueName".data d.queueNameF ++
    serializeElem "MessageType".data d.messageTypeF ++
    serializeElem "Content".data d.contentF ++
    "</MQMessage>".data

/-- XML line-ending normalization a conforming parser (expat) applies to
literal text on input: `\r\n` and lone `\r` both become `\n`. -/
def normNL : List Char → List Char
  | [] => []
  | [c] => if c = '\r' then ['\n'] else [c]
  | c :: d :: rest =>
    if c = '\r' then
      if d = '\n' then '\n' :: normNL rest
      else '\n' :: normNL (d :: rest)
    else c :: normNL (d :: rest)

/-- One entity reference of character data, at the position right after a
`&`: the resolved character and the number of characters consumed. Only
the five predeclared XML entities exist here — the only references the
serializer can emit. -/
def xmlEntRef (rest : List Char) : Option (Char × Nat) :=
  if List.isPrefixOf ['a', 'm', 'p', ';'] rest then some ('&', 4)
  else if List.isPrefixOf ['l', 't', ';'] rest then some ('<', 3)
  else if List.isPrefixOf ['g', 't', ';'] rest then some ('>', 3)
  else if List.isPrefixOf ['q', 'u', 'o', 't', ';'] rest then some ('"', 5)
  else if List.isPrefixOf ['a', 'p', 'o', 's', ';'] rest then some (Char.ofNat 39, 5)
  else none

/-- Entity resolution a parser applies to character data on input,
fuelled: the fuel only bounds the number of scan steps and `s.length`
steps always suffice. A bare `&` matching no entity cannot occur in the
serializer's output, so that fallback is unreachable on written
documents. -/
def xmlUnescFuel : Nat → List Char → List Char
  | 0, s => s
  | _ + 1, [] => []
  | fuel + 1, c :: rest =>
    if c = '&' then
      match xmlEntRef rest with
      | some (ch, n) => ch :: xmlUnescFuel fuel (rest.drop n)
      | none => '&' :: xmlUnescFuel fuel rest
    else c :: xmlUnescFuel fuel rest

def xmlUnescapeText (s : List Char) : List Char := xmlUnescFuel s.length s

/-- The `Content` text recovered by parsing the written file back: an
empty content was serialized as a self-closed element, whose parsed text
is `None`; otherwise the serialized character data is read back through
line-ending normalization and entity resolution. -/
def readBackContent (content : List Char) : Option (List Char) :=
  if content.isEmpty then none
  else some (xmlUnescapeText (normNL (escapeCdata content)))

/-! Helper lemmas. -/

/-- Once `stop_signal` is set internally, the rest of the run is fixed:
exit the inner loop, log, back off once, fail the outer check, return. -/
theorem runInnerStop (l : List Ev) : run .inner true l =
    ([.checkStop true, .log .retrying, .backoff 10, .checkStop true], .stopped) := by
  cases l <;> rfl

/-- When `findSub` reports index `i`, the pattern occurs at `i` and at no
earlier position. -/
theorem findSub_some_first (pat : List Char) :
    ∀ s i, findSub pat s = some i →
      pat.isPrefixOf (s.drop i) = true ∧ ∀ j < i, pat.isPrefixOf (s.drop j) = false := by
  intro s
  induction s with
  | nil =>
    intro i h
    cases hp : pat.isPrefixOf ([] : List Char) with
    | true =>
      rw [findSub, if_pos hp] at h
      cases h
      exact ⟨hp, by omega⟩
    | false => rw [findSub, if_neg (by simp [hp])] at h; cases h
  | cons c rest ih =>
    intro i h
    cases hp : pat.isPrefixOf (c :: rest) with
    | true =>
      rw [findSub, if_pos hp] at h
      cases h
      exact ⟨hp, by omega⟩
    | false =>
      rw [findSub, if_neg (by simp [hp])] at h
      rw [Option.map_eq_some'] at h
      obtain ⟨k, hk, rfl⟩ := h
      obtain ⟨h1, h2⟩ := ih k hk
      refine ⟨by simpa using h1, ?_⟩
      intro j hj
      cases j with
      | zero => exact hp
      | succ j' => simpa using h2 j' (by omega)

/-- When `findSub` reports no occurrence, the pattern occurs nowhere. -/
theorem findSub_none_no_occur (pat : List Char) :
    ∀ s, findSub pat s = none → ∀ i, pat.isPrefixOf (s.drop i) = false := by
  intro s
  induction s with
  | nil =>
    intro h i
    cases hp : pat.isPrefixOf ([] : List Char) with
    | true => rw [findSub, if_pos hp] at h; cases h
    | false => simpa using hp
  | cons c rest ih =>
    intro h i
    cases hp : pat.isPrefixOf (c :: rest) with
    | true => rw [findSub, if_pos hp] at h; cases h
    | false =>
      rw [findSub, if_neg (by simp [hp]), Option.map_eq_none'] at h
      cases i with
      | zero => exact hp
      | succ i' => simpa using ih h i'

/-- The scanner of `html.unescape` leaves ampersand-free text unchanged
(with any fuel). -/
theorem unescapeFuel_no_amp :
    ∀ (fuel : Nat) (s : List Char), (∀ c ∈ s, c ≠ '&') → unescapeFuel fuel s = s := by
  intro fuel
  induction fuel with
  | zero => intro s _; rfl
  | succ f ih =>
    intro s h
    cases s with
    | nil => rfl
    | cons c rest =>
      have hc : c ≠ '&' := h c (by simp)
      have : (c == '&') = false := by simpa using hc
      simp [unescapeFuel, this]
      exact ih rest (fun d hd => h d (by simp [hd]))

/-- `html.unescape` leaves ampersand-free text unchanged. -/
theorem htmlUnescape_no_amp (s : List Char) (h : ∀ c ∈ s, c ≠ '&') :
    htmlUnescape s = s :=
  unescapeFuel_no_amp s.length s h

/-- Every character surviving `ctrlStrip` is outside the removal set. -/
theorem ctrlStrip_kept (s : List Char) :
    ∀ c ∈ ctrlStrip s, removedByRegex c = false := by
  intro c hc
  have := List.of_mem_filter hc
  simpa using this

/-- `ctrlStrip` keeps a list untouched when nothing in it is removable. -/
theorem ctrlStrip_of_kept (s : List Char) (h : ∀ c ∈ s, removedByRegex c = false) :
    ctrlStrip s = s := by
  apply List.filter_eq_self.mpr
  intro c hc
  simpa using h c hc

/-- `headerStrip` returns its input or a suffix of it located by `findSub`. -/
theorem headerStrip_cases (s : List Char) :
    headerStrip s = s ∨
      ∃ i, findSub xmlMarker s = some i ∧ headerStrip s = s.drop i := by
  unfold headerStrip
  by_cases hp : rfhMarker.isPrefixOf s = true
  · cases hfs : findSub xmlMarker s with
    | none => simp [hp, hfs]
    | some i => right; exact ⟨i, rfl, by simp [hp, hfs]⟩
  · simp [hp]

/-- Membership is preserved from `headerStrip`'s output to its input. -/
theorem headerStrip_mem (s : List Char) (c : Char) (h : c ∈ headerStrip s) : c ∈ s := by
  rcases headerStrip_cases s with he | ⟨i, _, he⟩
  · rwa [he] at h
  · rw [he] at h
    exact List.drop_subset i s h

/-- A list with the `<?xml` marker as a prefix does not have `RFH` as a
prefix. -/
theorem xml_not_rfh (z : List Char) (h : xmlMarker.isPrefixOf z = true) :
    rfhMarker.isPrefixOf z = false := by
  cases z with
  | nil => cases h
  | cons b bs =>
    rw [xmlMarker] at h
    have hb : b = '<' := by
      simp [List.isPrefixOf, Bool.and_eq_true, beq_iff_eq] at h
      exact h.1.symm
    subst hb
    simp [rfhMarker, List.isPrefixOf]

/-- `headerStrip` is idempotent. -/
theorem headerStrip_idem (s : List Char) :
    headerStrip (headerStrip s) = headerStrip s := by
  by_cases hp : rfhMarker.isPrefixOf s = true
  · cases hfs : findSub xmlMarker s with
    | none =>
      have he : headerStrip s = s := by simp [headerStrip, hp, hfs]
      rw [he, he]
    | some i =>
      have he : headerStrip s = s.drop i := by simp [headerStrip, hp, hfs]
      have h1 := (findSub_some_first xmlMarker s i hfs).1
      have h2 := xml_not_rfh (s.drop i) h1
      rw [he]
      simp [headerStrip, h2]
  · have he : headerStrip s = s := by simp [headerStrip, hp]
    rw [he, he]

/-- `ctrlStrip` is idempotent. -/
theorem ctrlStrip_idem (s : List Char) : ctrlStrip (ctrlStrip s) = ctrlStrip s :=
  ctrlStrip_of_kept _ (ctrlStrip_kept s)

/-- `clean_message` is idempotent. -/
theorem clean_message_idem (s : List Char) :
    clean_message (clean_message s) = clean_message s := by
  show headerStrip (ctrlStrip (headerStrip (ctrlStrip s))) = headerStrip (ctrlStrip s)
  have h1 : ctrlStrip (headerStrip (ctrlStrip s)) = headerStrip (ctrlStrip s) := by
    apply ctrlStrip_of_kept
    intro c hc
    exact ctrlStrip_kept s c (headerStrip_mem _ c hc)
  rw [h1, headerStrip_idem]

/-- Characters of `clean_message`'s output occur in its input. -/
theorem clean_message_mem (s : List Char) (c : Char) (h : c ∈ clean_message s) :
    c ∈ s :=
  List.mem_of_mem_filter (headerStrip_mem _ c h)

/-- On ampersand-free input the sanitizer is just `clean_message`. -/
theorem sanitize_no_amp (s : List Char) (h : ∀ c ∈ s, c ≠ '&') :
    sanitize s = clean_message s :=
  htmlUnescape_no_amp _ (fun c hc => h c (clean_message_mem s c hc))

/-- `normNL` passes a character other than a carriage return through. -/
theorem normNL_cons_ne (c : Char) (l : List Char) (hc : c ≠ '\r') :
    normNL (c :: l) = c :: normNL l := by
  cases l with
  | nil => simp [normNL, hc]
  | cons d r => simp [normNL, hc]

/-- `normNL` is the identity on carriage-return-free text. -/
theorem normNL_no_cr (s : List Char) (h : ∀ c ∈ s, c ≠ '\r') : normNL s = s := by
  induction s with
  | nil => rfl
  | cons c rest ih =>
    rw [normNL_cons_ne c rest (h c (by simp)), ih (fun d hd => h d (by simp [hd]))]

theorem escapeCdata_cons (c : Char) (t : List Char) :
    escapeCdata (c :: t) = escC c ++ escapeCdata t := rfl

/-- Escaping introduces no carriage return. -/
theorem escapeCdata_no_cr (s : List Char) (h : ∀ c ∈ s, c ≠ '\r') :
    ∀ d ∈ escapeCdata s, d ≠ '\r' := by
  induction s with
  | nil => intro d hd; cases hd
  | cons c t ih =>
    intro d hd
    rw [escapeCdata_cons, List.mem_append] at hd
    rcases hd with hd | hd
    · unfold escC at hd
      split_ifs at hd
      · simp at hd; rcases hd with rfl | rfl | rfl | rfl | rfl <;> decide
      · simp at hd; rcases hd with rfl | rfl | rfl | rfl <;> decide
      · simp at hd; rcases hd with rfl | rfl | rfl | rfl <;> decide
      · simp at hd; subst hd; exact h _ (by simp)
    · exact ih (fun e he => h e (by simp [he])) d hd

/-- The parser's entity resolution inverts the serializer's escaping,
with any sufficient fuel. -/
theorem xmlUnescFuel_escape :
    ∀ (fuel : Nat) (s : List Char), (escapeCdata s).length ≤ fuel →
      xmlUnescFuel fuel (escapeCdata s) = s := by
  intro fuel
  induction fuel with
  | zero =>
    intro s h
    cases s with
    | nil => rfl
    | cons c t =>
      exfalso
      rw [escapeCdata_cons, List.length_append] at h
      have h1 : 1 ≤ (escC c).length := by
        unfold escC; split_ifs <;> simp
      omega
  | succ f ih =>
    intro s h
    cases s with
    | nil => rfl
    | cons c t =>
      by_cases h1 : c = '&'
      · subst h1
        have hstep : xmlUnescFuel (f + 1) (escapeCdata ('&' :: t)) =
            '&' :: xmlUnescFuel f (escapeCdata t) := by
          show xmlUnescFuel (f + 1) ('&' :: 'a' :: 'm' :: 'p' :: ';' :: escapeCdata t) =
            '&' :: xmlUnescFuel f (escapeCdata t)
          rw [xmlUnescFuel]
          simp [xmlEntRef, List.isPrefixOf]
        have hlen : (escapeCdata t).length ≤ f := by
          rw [escapeCdata_cons, List.length_append] at h
          have h5 : (escC '&').length = 5 := rfl
          omega
        rw [hstep, ih t hlen]
      · by_cases h2 : c = '<'
        · subst h2
          have hstep : xmlUnescFuel (f + 1) (escapeCdata ('<' :: t)) =
              '<' :: xmlUnescFuel f (escapeCdata t) := by
            show xmlUnescFuel (f + 1) ('&' :: 'l' :: 't' :: ';' :: escapeCdata t) =
              '<' :: xmlUnescFuel f (escapeCdata t)
            rw [xmlUnescFuel]
            simp [xmlEntRef, List.isPrefixOf]
          have hlen : (escapeCdata t).length ≤ f := by
            rw [escapeCdata_cons, List.length_append] at h
            have h4 : (escC '<').length = 4 := rfl
            omega
          rw [hstep, ih t hlen]
        · by_cases h3 : c = '>'
          · subst h3
            have hstep : xmlUnescFuel (f + 1) (escapeCdata ('>' :: t)) =
                '>' :: xmlUnescFuel f (escapeCdata t) := by
              show xmlUnescFuel (f + 1) ('&' :: 'g' :: 't' :: ';' :: escapeCdata t) =
                '>' :: xmlUnescFuel f (escapeCdata t)
              rw [xmlUnescFuel]
              simp [xmlEntRef, List.isPrefixOf]
            have hlen : (escapeCdata t).length ≤ f := by
              rw [escapeCdata_cons, List.length_append] at h
              have h4 : (escC '>').length = 4 := rfl
              omega
            rw [hstep, ih t hlen]
          · have he : escapeCdata (c :: t) = c :: escapeCdata t := by
              rw [escapeCdata_cons]
              unfold escC
              rw [if_neg h1, if_neg h2, if_neg h3]
              rfl
            have hstep : xmlUnescFuel (f + 1) (c :: escapeCdata t) =
                c :: xmlUnescFuel f (escapeCdata t) := by
              simp [xmlUnescFuel, h1]
            have hlen : (escapeCdata t).length ≤ f := by
              rw [he] at h
              simp at h
              omega
            rw [he, hstep, ih t hlen]

/-- Write-then-read inversion for character data. -/
theorem xmlUnescape_escape (s : List Char) :
    xmlUnescapeText (escapeCdata s) = s :=
  xmlUnescFuel_escape _ _ (le_refl _)

/-- A byte that can begin no UTF-8 sequence (a stray continuation byte,
an overlong-only lead `0xC0`/`0xC1`, or a byte above `0xF4`) is dropped. -/
theorem utf8_skip_invalid (b : Nat) (rest : List Nat)
    (h : (0x80 ≤ b ∧ b ≤ 0xc1) ∨ 0xf5 ≤ b) :
    utf8DecodeIgnore (b :: rest) = utf8DecodeIgnore rest := by
  unfold utf8DecodeIgnore
  rw [List.length_cons, utf8Fuel.eq_def]
  split
  · omega
  · simp_all
  · rename_i x1 x2 fuel bb rr heq1 heq2
    injection heq2 with hb hr
    subst hb
    subst hr
    have hf : fuel = rest.length := by omega
    subst hf
    rcases h with ⟨h1, h2⟩ | h1
    · rw [if_neg (by omega), if_pos (by omega)]
    · rw [if_neg (by omega), if_neg (by omega), if_neg (by omega),
        if_neg (by omega), if_neg (by omega)]

/-- ASCII bytes decode to themselves. -/
theorem utf8_ascii (bs : List Nat) (h : ∀ x ∈ bs, x < 0x80) :
    utf8DecodeIgnore bs = bs.map Char.ofNat := by
  induction bs with
  | nil => rfl
  | cons b t ih =>
    have hb : b < 0x80 := h b (by simp)
    have ht := ih (fun x hx => h x (by simp [hx]))
    unfold utf8DecodeIgnore at ht ⊢
    rw [List.length_cons, utf8Fuel.eq_def]
    split
    · omega
    · simp_all
    · rename_i x1 x2 fuel bb rr heq1 heq2
      injection heq2 with hb2 hr
      subst hb2
      subst hr
      have hf : fuel = t.length := by omega
      subst hf
      rw [if_pos (by omega), List.map_cons, ht]

/-- `padDigits` always renders exactly the requested width. -/
theorem padDigits_length (w : Nat) : ∀ n, (padDigits w n).length = w := by
  induction w with
  | zero => intro n; rfl
  | succ v ih => intro n; simp [padDigits, ih]

/-! Claim theorems. -/

/-- C1: in the RECEIVING state, a receive that ends with no message and no
error — a falsy returned value, such as an empty byte string — makes the
loop set the shutdown flag, leave the inner receive loop, and terminate
(after the unconditional final backoff) without issuing another receive:
the remaining trace is completely determined, whatever the environment
would have answered next, and contains exactly one receive action. -/
theorem c1_no_message_stops_consumption (rest : List Ev) :
    run .inner false (.flag false :: .recv .empty :: rest) =
      ([.checkStop false, .receive .empty, .log .noMore, .setStop,
        .checkStop true, .log .retrying, .backoff 10, .checkStop true], .stopped) ∧
    run .inner false (.flag false :: .recv (.msg (.bytes [])) :: rest) =
      ([.checkStop false, .receive (.msg (.bytes [])), .log .noMore, .setStop,
        .checkStop true, .log .retrying, .backoff 10, .checkStop true], .stopped) := by
  constructor
  · have h1 : run .inner false (.flag false :: .recv .empty :: rest) =
        (.checkStop false :: .receive .empty :: .log .noMore :: .setStop ::
          (run .inner true rest).1, (run .inner true rest).2) := rfl
    rw [h1, runInnerStop]
  · rw [run.eq_def]
    simp [truthy, runInnerStop]

/-- C2: on every run, however the environment behaves, the
receive-and-persist subsequence of the trace alternates: each receive of a
truthy message is followed by exactly one persist attempt carrying that
message's decoded text before the next receive is issued, no persist
occurs anywhere else, and no received message is persisted twice. -/
theorem c2_receive_persist_alternation (ph : Phase) (st : Bool) (evs : List Ev) :
    rsOk (((run ph st evs).1).filter isRS) = true := by
  induction ph, st, evs using run.induct with
  | case3 rest => rw [run.eq_def]; simp [rsOk]
  | case10 rest ih => rw [run.eq_def]; simp_all [isRS, rsOk]
  | case14 b pl r2 hb ht ih => rw [run.eq_def]; simp_all [runInnerStop, isRS, rsOk]
  | _ => simp_all [run, runInnerStop, isRS, rsOk]

/-- C3 counterexample: in a run where a persist fails, the loop does not
keep receiving within the same session — contrary to the claim, the first
session-level action after the failed persist attempt is not a receive
(it is the reconnect backoff). -/
theorem c3_counterexample_session_teardown :
    contAfterSaveFail (runLoop
      [.flag false, .conn true, .flag false, .recv (.msg (.text ['m'])), .save false,
       .flag false, .conn true, .flag false]).1 = false := by decide

/-- C3 amended: a persist failure is non-fatal — the loop logs it and goes
on to the next message — but not within the same session: the exception
reaches the outer handler, which logs it, waits the 10-second backoff and
reconnects before any further receive. -/
theorem c3_persist_failure_logged_then_reconnect (pl : Payload)
    (h : truthy pl = true) (rest : List Ev) :
    run .inner false (.flag false :: .recv (.msg pl) :: .save false :: rest) =
      (.checkStop false :: .receive (.msg pl) :: .log .received ::
        .saveAttempt (decodePayload pl) false :: .log .listenerError ::
        .log .retrying :: .backoff 10 :: (run .outer false rest).1,
        (run .outer false rest).2) := by
  simp [run, h]

/-- Witness for the amended C3 at a concrete one-character message. -/
theorem c3_witness_reconnect :
    truthy (.text ['m']) = true ∧
    run .inner false [.flag false, .recv (.msg (.text ['m'])), .save false] =
      ([.checkStop false, .receive (.msg (.text ['m'])), .log .received,
        .saveAttempt ['m'] false, .log .listenerError, .log .retrying, .backoff 10],
       .starved) := by
  refine ⟨by decide, ?_⟩
  have h := c3_persist_failure_logged_then_reconnect (.text ['m']) (by decide) []
  simpa using h

/-- C4: a receive failing with `MQRC_NO_MSG_AVAILABLE` is retried
immediately: the loop stays in the inner receive loop of the same session,
and the actions between this receive and the continuation hold no sleep,
no backoff, no reconnect and no teardown — only the retry log line. -/
theorem c4_transient_empty_immediate_retry (rest : List Ev) :
    run .inner false (.flag false :: .recv (.mqerr MQRC_NO_MSG_AVAILABLE) :: rest) =
      (.checkStop false :: .receive (.mqerr MQRC_NO_MSG_AVAILABLE) :: .log .retryNoMsg ::
        (run .inner false rest).1, (run .inner false rest).2) := rfl

/-- C5: the sanitizer (a) drops exactly the characters of
`[0x00-0x08] ∪ [0x0B-0x1F]` other than `\n`, `\r`, `\t` (the code's
removal set, which spares `0x0D`, coincides with that description);
(b) strips everything before the first `<?xml` if and only if the text
starts with `RFH`, and leaves the text unchanged when the marker is
missing or the text does not start with `RFH`; (c) afterwards decodes HTML
entities; and on the spec's example inputs it yields exactly the stated
outputs. -/
theorem c5_sanitizer_spec :
    (∀ s, ctrlStrip s = s.filter (fun c => !removedByRegex c)) ∧
    (∀ c : Char, removedByRegex c = true ↔
      ((c.toNat ≤ 8 ∨ (11 ≤ c.toNat ∧ c.toNat ≤ 31)) ∧
        c.toNat ≠ 10 ∧ c.toNat ≠ 13 ∧ c.toNat ≠ 9)) ∧
    (∀ s i, rfhMarker.isPrefixOf s = true → xmlMarker.isPrefixOf (s.drop i) = true →
      (∀ j < i, xmlMarker.isPrefixOf (s.drop j) = false) → headerStrip s = s.drop i) ∧
    (∀ s, rfhMarker.isPrefixOf s = true → (∀ i, xmlMarker.isPrefixOf (s.drop i) = false) →
      headerStrip s = s) ∧
    (∀ s, rfhMarker.isPrefixOf s = false → headerStrip s = s) ∧
    (∀ s, sanitize s = htmlUnescape (headerStrip (ctrlStrip s))) ∧
    sanitize "RFH...<?xml version=\"1.0\"?><a/>".data = "<?xml version=\"1.0\"?><a/>".data ∧
    htmlUnescape "&amp;".data = "&".data := by
  refine ⟨fun s => rfl, ?_, ?_, ?_, ?_, fun s => rfl, by decide, by decide⟩
  · intro c
    rw [removedByRegex]
    simp only [Bool.or_eq_true, Bool.and_eq_true, decide_eq_true_eq]
    omega
  · intro s i hpre hocc hmin
    cases hfs : findSub xmlMarker s with
    | none =>
      have hx := findSub_none_no_occur xmlMarker s hfs i
      rw [hocc] at hx
      cases hx
    | some k =>
      obtain ⟨h1, h2⟩ := findSub_some_first xmlMarker s k hfs
      have hk : k = i := by
        rcases lt_trichotomy k i with hki | hki | hki
        · have hx := hmin k hki
          rw [h1] at hx
          cases hx
        · exact hki
        · have hx := h2 i hki
          rw [hocc] at hx
          cases hx
      subst hk
      simp [headerStrip, hpre, hfs]
  · intro s hpre hno
    cases hfs : findSub xmlMarker s with
    | none => simp [headerStrip, hpre, hfs]
    | some k =>
      have h1 := (findSub_some_first xmlMarker s k hfs).1
      have hx := hno k
      rw [h1] at hx
      cases hx
  · intro s hpre
    simp [headerStrip, hpre]

/-- Witness for C5's hypothesis-bearing header-strip conjunct at a
concrete input. -/
theorem c5_witness_header_strip :
    headerStrip "RFHx<?xml".data = "<?xml".data := by
  have h := c5_sanitizer_spec.2.2.1 "RFHx<?xml".data 4 (by decide) (by decide) (by decide)
  rw [h]
  decide

/-- C6 counterexample: the full sanitizer is not idempotent — HTML entity
decoding collapses `&amp;amp;` to `&amp;`, which a second pass collapses
to `&`. -/
theorem c6_counterexample_double_unescape :
    sanitize (sanitize "&amp;amp;".data) ≠ sanitize "&amp;amp;".data := by decide

/-- C6 amended: the sanitizer is idempotent on every input containing no
ampersand (entity decoding is the only non-idempotent step), and its
control-character-strip and header-strip stages are idempotent on all
inputs. -/
theorem c6_amended_idempotence :
    (∀ s, (∀ c ∈ s, c ≠ '&') → sanitize (sanitize s) = sanitize s) ∧
    (∀ s, clean_message (clean_message s) = clean_message s) := by
  constructor
  · intro s h
    have h1 : sanitize s = clean_message s := sanitize_no_amp s h
    have h2 : ∀ c ∈ clean_message s, c ≠ '&' :=
      fun c hc => h c (clean_message_mem s c hc)
    rw [h1, sanitize_no_amp _ h2, clean_message_idem]
  · exact clean_message_idem

/-- Witness for the amended C6 at a concrete ampersand-free input. -/
theorem c6_witness_idempotence :
    sanitize (sanitize "RFHabc".data) = sanitize "RFHabc".data :=
  c6_amended_idempotence.1 "RFHabc".data (by decide)

/-- C7 counterexample: the write-then-read round trip is not exact for
every message — a carriage return in the sanitized text is written as a
raw byte and read back as a line feed by the XML parser's line-ending
normalization. -/
theorem c7_counterexample_carriage_return :
    readBackContent ((buildDoc "20250101T000000Z".data "a\rb".data).contentF) ≠
      some (sanitize "a\rb".data) := by decide

/-- C7 amended: the persisted document is a UTF-8 document with a declared
encoding whose root holds exactly the four fields — a timestamp of the
fixed `YYYYMMDDTHHMMSSZ` shape, the queue name, the constant `Text`, and
the sanitized content — under the file name `message_<timestamp>.xml`; the
Content field read back from the document equals the sanitized text
exactly whenever that text is nonempty and contains no carriage return
(a `\r` is normalized to `\n` on parse; empty content serializes as a
self-closed element and reads back as absent). -/
theorem c7_document_format_roundtrip :
    (∀ ts msg, buildDoc ts msg = ⟨ts, QUEUE_NAME, "Text".data, sanitize msg⟩) ∧
    (∀ ts, saveFileName ts = "message_".data ++ ts ++ ".xml".data) ∧
    (∀ y mo d h mi s, ∃ dpart tpart,
      formatTimestamp y mo d h mi s = dpart ++ 'T' :: tpart ++ ['Z'] ∧
        dpart.length = 8 ∧ tpart.length = 6) ∧
    (∀ ts msg, serializeDoc (buildDoc ts msg) =
      xmlDecl ++ "<MQMessage>".data ++ serializeElem "Timestamp".data ts ++
        serializeElem "QueueName".data QUEUE_NAME ++
        serializeElem "MessageType".data "Text".data ++
        serializeElem "Content".data (sanitize msg) ++ "</MQMessage>".data) ∧
    (∀ msg, sanitize msg ≠ [] → (∀ c ∈ sanitize msg, c ≠ '\r') →
      readBackContent (sanitize msg) = some (sanitize msg)) := by
  refine ⟨fun ts msg => rfl, fun ts => rfl, ?_, fun ts msg => rfl, ?_⟩
  · intro y mo d h mi s
    refine ⟨padDigits 4 y ++ padDigits 2 mo ++ padDigits 2 d,
      padDigits 2 h ++ padDigits 2 mi ++ padDigits 2 s, ?_, ?_, ?_⟩
    · simp [formatTimestamp]
    · simp [padDigits_length]
    · simp [padDigits_length]
  · intro msg hne hcr
    unfold readBackContent
    rw [if_neg (by simpa using hne)]
    rw [normNL_no_cr _ (escapeCdata_no_cr _ hcr), xmlUnescape_escape]

/-- Witness for the amended C7 round trip at a concrete message. -/
theorem c7_witness_roundtrip :
    readBackContent (sanitize "he<ll&o".data) = some (sanitize "he<ll&o".data) := by
  have h := c7_document_format_roundtrip.2.2.2.2 "he<ll&o".data (by decide) (by decide)
  exact h

/-- C8 counterexample: a run in which a receive error ends the first
session and the loop reconnects contains two successful connects and zero
close actions — the session is not closed exactly once before the
reconnect; it is never closed at all. -/
theorem c8_counterexample_no_close :
    ((runLoop [.flag false, .conn true, .flag false, .recv (.mqerr 2035),
        .flag false, .conn true, .flag false]).1.count Act.close = 0) ∧
    ((runLoop [.flag false, .conn true, .flag false, .recv (.mqerr 2035),
        .flag false, .conn true, .flag false]).1.count (Act.connect true) = 2) := by
  decide

/-- C8 amended: `listen_to_queue` contains no close or disconnect call on
any path: whatever the environment does, no trace ever holds a close
action — when a session ends (receive error, unexpected error, or
shutdown) its handles are simply abandoned, and each reconnection builds a
fresh session. -/
theorem c8_sessions_never_closed (ph : Phase) (st : Bool) (evs : List Ev) :
    Act.close ∉ (run ph st evs).1 := by
  induction ph, st, evs using run.induct with
  | case3 rest => rw [run.eq_def]; simp
  | case10 rest ih => rw [run.eq_def]; simp_all
  | case14 b pl r2 hb ht ih => rw [run.eq_def]; simp_all [runInnerStop]
  | _ => simp_all [run, runInnerStop]

/-- C9: the loop returns only after observing the shutdown flag set (every
`stopped` run's trace holds a successful stop check); `n` consecutive
connect failures produce exactly the `n`-fold log-and-10-second-backoff
block — `n` backoff waits — before the successful connect enters the
receive loop; and a receive error or an unexpected exception likewise
leads to a logged 10-second backoff followed by the next connection
attempt, never to termination. -/
theorem c9_resilience_backoff :
    (∀ ph st evs, (run ph st evs).2 = .stopped → Act.checkStop true ∈ (run ph st evs).1) ∧
    (∀ n rest, run .outer false (nFails n ++ .flag false :: .conn true :: rest) =
      (failActs n ++ .checkStop false :: .connect true :: .log .connected ::
        (run .inner false rest).1, (run .inner false rest).2)) ∧
    (∀ n, backoffCount (failActs n) = n) ∧
    (∀ rest, run .inner false (.flag false :: .recv .exn :: rest) =
      (.checkStop false :: .receive .exn :: .log .listenerError :: .log .retrying ::
        .backoff 10 :: (run .outer false rest).1, (run .outer false rest).2)) ∧
    (∀ reason rest, reason ≠ MQRC_NO_MSG_AVAILABLE →
      run .inner false (.flag false :: .recv (.mqerr reason) :: rest) =
        (.checkStop false :: .receive (.mqerr reason) :: .log .recvError ::
          .log .retrying :: .backoff 10 :: (run .outer false rest).1,
          (run .outer false rest).2)) := by
  refine ⟨?_, ?_, ?_, fun rest => rfl, ?_⟩
  · intro ph st evs h
    induction ph, st, evs using run.induct with
    | case3 rest => rw [run.eq_def]; simp
    | case10 rest ih => rw [run.eq_def] at h ⊢; simp_all
    | case14 b pl r2 hb ht ih => rw [run.eq_def] at h ⊢; simp_all [runInnerStop]
    | _ => simp_all [run, runInnerStop]
  · intro n
    induction n with
    | zero => intro rest; rfl
    | succ k ih => intro rest; simp [nFails, failActs, run, ih]
  · intro n
    induction n with
    | zero => rfl
    | succ k ih => simp [failActs, backoffCount] at ih ⊢; omega
  · intro reason rest h
    simp [run, h]

/-- Witness for C9's hypothesis-bearing conjuncts at concrete inputs. -/
theorem c9_witness_backoff :
    Act.checkStop true ∈ (run .outer false [.flag true]).1 ∧
    run .inner false [.flag false, .recv (.mqerr 2035)] =
      ([.checkStop false, .receive (.mqerr 2035), .log .recvError, .log .retrying,
        .backoff 10], .starved) := by
  constructor
  · exact c9_resilience_backoff.1 .outer false [.flag true] (by decide)
  · have h := c9_resilience_backoff.2.2.2.2 2035 [] (by decide)
    simpa using h

/-- C10: a byte-string message is decoded as UTF-8 with errors ignored
before being sanitized and persisted — for any byte list whatsoever, even
ill-formed, the loop proceeds to a persist attempt whose content is the
ignore-decoding, never to an error; a byte that can start no UTF-8
sequence is silently dropped; trivially-valid (ASCII) bytes decode to
exactly their characters. -/
theorem c10_bytes_decoded_ignore :
    (∀ bs rest, bs ≠ [] →
      run .inner false (.flag false :: .recv (.msg (.bytes bs)) :: .save true :: rest) =
        (.checkStop false :: .receive (.msg (.bytes bs)) :: .log .received ::
          .saveAttempt (utf8DecodeIgnore bs) true :: .log .saved :: .msgDelay 10 ::
          (run .inner false rest).1, (run .inner false rest).2)) ∧
    (∀ b rest, ((0x80 ≤ b ∧ b ≤ 0xc1) ∨ 0xf5 ≤ b) →
      utf8DecodeIgnore (b :: rest) = utf8DecodeIgnore rest) ∧
    (∀ bs, (∀ x ∈ bs, x < 0x80) → utf8DecodeIgnore bs = bs.map Char.ofNat) := by
  refine ⟨?_, fun b rest h => utf8_skip_invalid b rest h, fun bs h => utf8_ascii bs h⟩
  intro bs rest h
  have ht : truthy (.bytes bs) = true := by simp [truthy, h]
  simp [run, ht, decodePayload]

/-- Witness for C10 at a concrete ill-formed byte string. -/
theorem c10_witness_decode :
    run .inner false [.flag false, .recv (.msg (.bytes [0x61, 0xff, 0x62])), .save true] =
      ([.checkStop false, .receive (.msg (.bytes [0x61, 0xff, 0x62])), .log .received,
        .saveAttempt ['a', 'b'] true, .log .saved, .msgDelay 10], .starved) ∧
    utf8DecodeIgnore [0xff, 0x61] = ['a'] := by
  constructor
  · have h := c10_bytes_decoded_ignore.1 [0x61, 0xff, 0x62] [] (by decide)
    have h2 : utf8DecodeIgnore [0x61, 0xff, 0x62] = ['a', 'b'] := by decide
    rw [h2] at h
    simpa using h
  · have h := c10_bytes_decoded_ignore.2.1 0xff [0x61] (by omega)
    rw [h]
    decide

end MQ
